import Mathlib

/-!
Shallow embedding of the ARPi fingertip-tracking core
(`src/hand_tracker.py`, `src/server_windows.py`, `src/network_client.py`)
and proofs about the spec's claims.

Numbers: Python floats are modelled as exact rationals (`ℚ`); Python `int(x)`
is truncation toward zero, `x // y` on ints is floor division, `round` is
banker's rounding.  `math.pi` is modelled by the rational value of the
double-precision constant.
-/

namespace ARPi

/-- Python `int(x)` on a float: truncation toward zero
(the ceiling `-⌊-q⌋` for negative arguments, the floor otherwise). -/
def pyInt (q : ℚ) : ℤ := if q < 0 then -⌊-q⌋ else ⌊q⌋

/-- Python 3 `round(x)` (banker's rounding: ties to even). -/
def pyRound (q : ℚ) : ℤ :=
  if q - ((⌊q⌋ : ℤ) : ℚ) < 1/2 then ⌊q⌋
  else if 1/2 < q - ((⌊q⌋ : ℤ) : ℚ) then ⌊q⌋ + 1
  else if ⌊q⌋ % 2 = 0 then ⌊q⌋ else ⌊q⌋ + 1

/-- The double-precision value of `math.pi` as an exact rational. -/
def mathPi : ℚ := 3.141592653589793

/-- `_alpha(dt, cutoff)` from `hand_tracker.py`:
`r = 2*pi*cutoff*dt; return r/(r+1) if r > 0 else 1`. -/
def alphaCoef (dt cutoff : ℚ) : ℚ :=
  let r := 2 * mathPi * cutoff * dt
  if 0 < r then r / (r + 1) else 1

/-- `_LowPass` from `hand_tracker.py`: one smoothing coefficient and an
optional seeded state. -/
structure LowPass where
  alpha : ℚ
  s : Option ℚ
  deriving DecidableEq

/-- `_LowPass.apply`: seed on first call, otherwise blend; returns the new
state together with the returned value. -/
def LowPass.apply (lp : LowPass) (v : ℚ) : LowPass × ℚ :=
  match lp.s with
  | none => ({ lp with s := some v }, v)
  | some s0 =>
    let s1 := lp.alpha * v + (1 - lp.alpha) * s0
    ({ lp with s := some s1 }, s1)

/-- `OneEuro1D` from `hand_tracker.py`: parameters plus mutable state. -/
structure OneEuro1D where
  freq : ℚ
  minCutoff : ℚ
  beta : ℚ
  dCutoff : ℚ
  xPrev : Option ℚ
  dxPrev : Option ℚ
  lastT : Option ℚ
  lpX : LowPass
  lpDx : LowPass
  deriving DecidableEq

/-- `OneEuro1D.__init__`: fresh (unseeded) filter; low-pass stages use the
default coefficient `alpha = 1.0`. -/
def mkOneEuro (freq minCutoff beta dCutoff : ℚ) : OneEuro1D :=
  { freq := max (1/1000) freq
    minCutoff := minCutoff
    beta := beta
    dCutoff := dCutoff
    xPrev := none
    dxPrev := none
    lastT := none
    lpX := ⟨1, none⟩
    lpDx := ⟨1, none⟩ }

/-- `OneEuro1D.update(x, t)`: returns the updated filter state and the
filtered value.  On the first call it seeds and passes the raw value
through; afterwards it clamps `dt` below by `1e-3`, low-passes the
derivative, derives the adaptive cutoff and blends. -/
def OneEuro1D.update (f : OneEuro1D) (x t : ℚ) : OneEuro1D × ℚ :=
  match f.lastT with
  | none =>
    ({ f with lastT := some t, xPrev := some x, dxPrev := some 0 }, x)
  | some t0 =>
    let dt := max (1/1000) (t - t0)
    -- once lastT is set, xPrev is set too (seeding order); the default is unreachable
    let xp := f.xPrev.getD x
    let dx := (x - xp) / dt
    let aD := alphaCoef dt f.dCutoff
    let (lpDx1, edx) := f.lpDx.apply (aD * dx + (1 - aD) * (f.dxPrev.getD dx))
    let cutoff := f.minCutoff + f.beta * |edx|
    let a := alphaCoef dt cutoff
    let (lpX1, filtered) := f.lpX.apply (a * x + (1 - a) * xp)
    ({ f with lastT := some t, xPrev := some filtered, dxPrev := some edx,
              lpX := lpX1, lpDx := lpDx1 }, filtered)

/-! ### Frame geometry, ROI gate, fingertip extraction and mapping
(`MultiHandTracker._worker`, lines 263–291). -/

/-- An integer pixel point. -/
abbrev Pt := ℤ × ℤ

/-- One landmark of the external detector's output: coordinates normalized
to the detector's 0–1 space. -/
structure Landmark where
  x : ℚ
  y : ℚ
  z : ℚ
  deriving DecidableEq

/-- The part of a detected hand the tracker consumes: the fingertip
landmark (index 8) and its proximal joint (index 6). -/
structure Hand where
  tip : Landmark
  pip : Landmark
  deriving DecidableEq

/-- The ROI rectangle of `_worker`:
`roi_w = int(w*s)`, `roi_h = int(roi_w*9/16)`,
`x_start = (w-roi_w)//2`, `y_start = (h-roi_h)//2`,
`x_end = x_start+roi_w`, `y_end = y_start+roi_h`. -/
structure Roi where
  roiW : ℤ
  roiH : ℤ
  xStart : ℤ
  yStart : ℤ
  xEnd : ℤ
  yEnd : ℤ
  deriving DecidableEq

def roiRect (w h : ℕ) (s : ℚ) : Roi :=
  let roiW := pyInt ((w : ℚ) * s)
  let roiH := pyInt ((roiW : ℚ) * 9 / 16)
  let xStart := Int.fdiv ((w : ℤ) - roiW) 2
  let yStart := Int.fdiv ((h : ℤ) - roiH) 2
  ⟨roiW, roiH, xStart, yStart, xStart + roiW, yStart + roiH⟩

/-- `_distance_coords` compares only the first two components
(`math.hypot(a[0]-b[0], a[1]-b[1])`); the `> 0.02` test on the distance is
modelled squared to stay rational. -/
def extendedTest (tip pip : Landmark) : Bool :=
  decide ((tip.x - pip.x) ^ 2 + (tip.y - pip.y) ^ 2 > 1/2500)

/-- An accepted tip of the local worker:
`{"screen": (screen_x, screen_y), "roi": (x_tip, y_tip), "hand_idx": idx}`. -/
structure AccTip where
  screen : Pt
  roi : Pt
  hand_idx : ℕ
  deriving DecidableEq

/-- Lines 280–291 of `_worker` for a single hand: extension test, ROI gate,
clamped ROI-relative fraction, scaling into the output space. -/
def acceptTip (w h : ℕ) (s : ℚ) (outW outH : ℕ) (idx : ℕ) (hand : Hand) :
    Option AccTip :=
  let r := roiRect w h s
  let xTip := pyInt (hand.tip.x * w)
  let yTip := pyInt (hand.tip.y * h)
  if r.xStart ≤ xTip ∧ xTip ≤ r.xEnd ∧ r.yStart ≤ yTip ∧ yTip ≤ r.yEnd
      ∧ extendedTest hand.tip hand.pip = true then
    let relX : ℚ := ((min (max xTip r.xStart) r.xEnd - r.xStart : ℤ) : ℚ) /
      ((max 1 r.roiW : ℤ) : ℚ)
    let relY : ℚ := ((min (max yTip r.yStart) r.yEnd - r.yStart : ℤ) : ℚ) /
      ((max 1 r.roiH : ℤ) : ℚ)
    some ⟨(pyInt (relX * outW), pyInt (relY * outH)), (xTip, yTip), idx⟩
  else
    none

/-- The per-frame extraction loop (`for idx, hand_landmarks in enumerate (...)`):
each detected hand is tested and the accepted ones are collected in order. -/
def extractTips (w h : ℕ) (s : ℚ) (outW outH : ℕ) (hands : List Hand) :
    List AccTip :=
  (hands.enum).filterMap fun p => acceptTip w h s outW outH p.1 p.2

/-! ### Association-list maps (Python `dict`s keyed by hand slot). -/

/-- `d[k] = v`: replace the binding if present, else append. -/
def alSet {α : Type} : List (ℕ × α) → ℕ → α → List (ℕ × α)
  | [], k, v => [(k, v)]
  | (k', v') :: t, k, v =>
    if k' = k then (k, v) :: t else (k', v') :: alSet t k v

/-- `d.get(k)`. -/
def alGet {α : Type} : List (ℕ × α) → ℕ → Option α
  | [], _ => none
  | (k', v') :: t, k => if k' = k then some v' else alGet t k

/-- `d.pop(k, None)`. -/
def alErase {α : Type} (l : List (ℕ × α)) (k : ℕ) : List (ℕ × α) :=
  l.filter fun p => p.1 ≠ k

/-- `k in d`. -/
def alHas {α : Type} (l : List (ℕ × α)) (k : ℕ) : Bool :=
  (alGet l k).isSome

/-- `d.keys()`. -/
def alKeys {α : Type} (l : List (ℕ × α)) : List ℕ := l.map Prod.fst

/-! ### The worker's locked state-update section
(`MultiHandTracker._worker`, lines 293–342). -/

/-- One entry of the published snapshot list:
`{"screen": ..., "hand_idx": k}` plus `"roi"` when present. -/
structure SnapItem where
  screen : Pt
  hand_idx : ℕ
  roi : Option Pt
  deriving DecidableEq

/-- The per-slot screen filter pair created on demand
(`OneEuro1D(freq=freq, min_cutoff=1.0, beta=0.007, d_cutoff=1.0)` twice). -/
def freshScreenFilters (freq : ℚ) : OneEuro1D × OneEuro1D :=
  (mkOneEuro freq 1 (7/1000) 1, mkOneEuro freq 1 (7/1000) 1)

/-- The per-slot ROI filter pair created on demand
(`OneEuro1D(freq=freq, min_cutoff=1.5, beta=0.01, d_cutoff=1.0)` twice). -/
def freshRoiFilters (freq : ℚ) : OneEuro1D × OneEuro1D :=
  (mkOneEuro freq (3/2) (1/100) 1, mkOneEuro freq (3/2) (1/100) 1)

/-- The mutable dictionaries touched while processing the current cycle's
accepted tips. -/
structure TipAcc where
  fs : List (ℕ × (OneEuro1D × OneEuro1D))
  fr : List (ℕ × (OneEuro1D × OneEuro1D))
  ls : List (ℕ × ℚ)
  ns : List (ℕ × Pt)
  nr : List (ℕ × Pt)
  deriving DecidableEq

/-- Body of `for t in tips:` (lines 299–319): ensure the slot's filters
exist, update all four 1-D filters, record the rounded smoothed points and
refresh `last_seen`. -/
def tipStep (freq now : ℚ) (acc : TipAcc) (t : AccTip) : TipAcc :=
  let hid := t.hand_idx
  let fs := if alHas acc.fs hid then acc.fs else alSet acc.fs hid (freshScreenFilters freq)
  let fr := if alHas acc.fr hid then acc.fr else alSet acc.fr hid (freshRoiFilters freq)
  let fp := (alGet fs hid).getD (freshScreenFilters freq)
  let rp := (alGet fr hid).getD (freshRoiFilters freq)
  let ux := fp.1.update (t.screen.1 : ℚ) now
  let uy := fp.2.update (t.screen.2 : ℚ) now
  let urx := rp.1.update (t.roi.1 : ℚ) now
  let ury := rp.2.update (t.roi.2 : ℚ) now
  { fs := alSet fs hid (ux.1, uy.1)
    fr := alSet fr hid (urx.1, ury.1)
    ls := alSet acc.ls hid now
    ns := alSet acc.ns hid (pyRound ux.2, pyRound uy.2)
    nr := alSet acc.nr hid (pyRound urx.2, pyRound ury.2) }

/-- Body of the retention loop (lines 322–330): a slot absent from the
current cycle keeps its last smoothed point while `now - last_seen < 0.25`,
otherwise its `last_seen` entry is popped. -/
def retainStep (now : ℚ) (oldRoi : List (ℕ × Pt))
    (acc : List (ℕ × Pt) × List (ℕ × Pt) × List (ℕ × ℚ)) (e : ℕ × Pt) :
    List (ℕ × Pt) × List (ℕ × Pt) × List (ℕ × ℚ) :=
  let ns := acc.1
  let nr := acc.2.1
  let ls := acc.2.2
  if alHas ns e.1 then acc
  else
    let age := now - ((alGet ls e.1).getD 0)
    if age < 1/4 then
      (alSet ns e.1 e.2,
       match alGet oldRoi e.1 with
       | some r => alSet nr e.1 r
       | none => nr,
       ls)
    else
      (ns, nr, alErase ls e.1)

/-- Lines 335–342: the snapshot is rebuilt from the slot keys in ascending
order; the `"roi"` entry is included only when present. -/
def buildSnapshot (ns nr : List (ℕ × Pt)) : List SnapItem :=
  (List.insertionSort (· ≤ ·) (alKeys ns)).map fun k =>
    ⟨(alGet ns k).getD (0, 0), k, alGet nr k⟩

/-- The tracker state shared between the worker and consumers. -/
structure TrackState where
  latestTips : List SnapItem
  lastSeen : List (ℕ × ℚ)
  smoothed : List (ℕ × Pt)
  smoothedRoi : List (ℕ × Pt)
  filtersScreen : List (ℕ × (OneEuro1D × OneEuro1D))
  filtersRoi : List (ℕ × (OneEuro1D × OneEuro1D))
  deriving DecidableEq

/-- `MultiHandTracker.__init__`: all tracking dictionaries start empty. -/
def initState : TrackState := ⟨[], [], [], [], [], []⟩

/-- The whole `with self._lock:` block of one worker cycle: filter the
current tips, retain or evict stale slots, publish the snapshot. -/
def cycleLocked (freq : ℚ) (s : TrackState) (tips : List AccTip) (now : ℚ) :
    TrackState :=
  let acc := tips.foldl (tipStep freq now)
    ⟨s.filtersScreen, s.filtersRoi, s.lastSeen, [], []⟩
  let r := s.smoothed.foldl (retainStep now s.smoothedRoi) (acc.ns, acc.nr, acc.ls)
  { latestTips := buildSnapshot r.1 r.2.1
    lastSeen := r.2.2
    smoothed := r.1
    smoothedRoi := r.2.1
    filtersScreen := acc.fs
    filtersRoi := acc.fr }

/-- One iteration of the `while self._running:` loop: a failed capture
(`frame is None`) sleeps one interval and leaves the state untouched;
otherwise extraction and the locked update run. -/
def workerStep (roiScale : ℚ) (outW outH : ℕ) (freq : ℚ) (s : TrackState)
    (frame : Option (ℕ × ℕ × List Hand)) (now : ℚ) : TrackState :=
  match frame with
  | none => s
  | some (w, h, hands) =>
    cycleLocked freq s (extractTips w h roiScale outW outH hands) now

/-- A run of worker cycles over a list of captured frames with timestamps. -/
def runWorker (roiScale : ℚ) (outW outH : ℕ) (freq : ℚ) (s : TrackState)
    (inputs : List (Option (ℕ × ℕ × List Hand) × ℚ)) : TrackState :=
  inputs.foldl (fun st p => workerStep roiScale outW outH freq st p.1 p.2) s

/-- `MultiHandTracker.get_tips`: a copy of the latest snapshot list. -/
def getTips (s : TrackState) : List SnapItem := s.latestTips

/-- `MultiHandTracker.get_primary`: the first tip's screen point, or none. -/
def getPrimary (s : TrackState) : Option Pt :=
  match getTips s with
  | [] => none
  | t :: _ => some t.screen

/-! ### Detector-side remote path (`server_windows.py`, `handle`). -/

/-- `PROJECTOR_W, PROJECTOR_H = 1920, 1080` in `server_windows.py`. -/
def PROJECTOR_W : ℕ := 1920

def PROJECTOR_H : ℕ := 1080

/-- One emitted tip of the server:
`{"hand_idx": idx, "roi": (x_tip, y_tip), "screen": (proj_x, proj_y)}`. -/
structure SrvTip where
  hand_idx : ℕ
  roi : Pt
  screen : Pt
  deriving DecidableEq

/-- Lines 65–74 of `handle` for one detected hand: planar extension test,
then direct scaling of the normalized tip into projector space. -/
def serverTipOf (w h : ℕ) (idx : ℕ) (lm : Hand) : Option SrvTip :=
  let ext := extendedTest lm.tip lm.pip
  let xTip := pyInt (lm.tip.x * w)
  let yTip := pyInt (lm.tip.y * h)
  if ext then
    some ⟨idx, (xTip, yTip),
      (pyInt (lm.tip.x * PROJECTOR_W), pyInt (lm.tip.y * PROJECTOR_H))⟩
  else
    none

/-- The server's per-frame tip list (`for idx, lm in enumerate(...)`). -/
def serverTips (w h : ℕ) (hands : List Hand) : List SrvTip :=
  (hands.enum).filterMap fun p => serverTipOf w h p.1 p.2

/-- Modelled from the spec (amended reading of §4.10): the detector side
applies only the extension test and maps the tip's full-frame normalized
coordinates straight into the output space — no ROI gate, no clamp. -/
def specRemoteTips (w h : ℕ) (hands : List Hand) : List SrvTip :=
  ((hands.enum).filter fun p => extendedTest p.2.tip p.2.pip).map fun p =>
    ⟨p.1, (pyInt (p.2.tip.x * w), pyInt (p.2.tip.y * h)),
      (pyInt (p.2.tip.x * PROJECTOR_W), pyInt (p.2.tip.y * PROJECTOR_H))⟩

/-- §4.3's membership test: a pixel point is inside the centered 16:9 ROI. -/
def insideRoi (w h : ℕ) (s : ℚ) (p : Pt) : Bool :=
  let r := roiRect w h s
  decide (r.xStart ≤ p.1 ∧ p.1 ≤ r.xEnd ∧ r.yStart ≤ p.2 ∧ p.2 ≤ r.yEnd)

/-! ### Camera open fallback (`MultiHandTracker.start` and
`RemoteCameraClient._open_camera`). -/

/-- Which capture backend an open procedure ends up holding. -/
inductive Backend
  | usb
  | cv0
  | picam
  | nocam
  deriving DecidableEq

/-- The observable behaviour of the machine's capture devices during one
open attempt: whether each constructor succeeds and whether each read
attempt returns a frame. -/
structure CamEnv where
  usbOpenOk : Bool
  usbRead : ℕ → Bool
  cv0OpenOk : Bool
  cv0Read : ℕ → Bool
  picamPresent : Bool
  picamOk : Bool

/-- `for attempt in range(n): ret, _ = cap.read(); if ret: found = True`. -/
def tryReadLoop (read : ℕ → Bool) : ℕ → Bool
  | 0 => false
  | n + 1 => tryReadLoop read n || read n

/-- `RemoteCameraClient._open_camera`: configured USB index with three read
attempts, then OpenCV device 0 with three read attempts, then Picamera2. -/
def networkOpen (e : CamEnv) : Backend :=
  if e.usbOpenOk && tryReadLoop e.usbRead 3 then .usb
  else if e.cv0OpenOk && tryReadLoop e.cv0Read 3 then .cv0
  else if e.picamPresent && e.picamOk then .picam
  else .nocam

/-- `MultiHandTracker.start` (with `prefer_usb=True`): the USB index with a
single verification read, then Picamera2, then OpenCV device 0 — the last
taken without any `isOpened`/read verification, so it succeeds whenever the
constructor does not raise. -/
def trackerOpen (e : CamEnv) : Backend :=
  if e.usbOpenOk && e.usbRead 0 then .usb
  else if e.picamPresent && e.picamOk then .picam
  else if e.cv0OpenOk then .cv0
  else .nocam

/-! ### Frame conditioner (`MultiHandTracker.enhance_frame`).
The cv2/numpy transforms are external collaborators; each may raise, which
the model expresses by `Option` results.  The `except: pass` clause returns
whatever the local variable `frame` is bound to at the failure point. -/

/-- The fallible external image operations used by `enhance_frame`, in call
order.  `claheChain` stands for the contrast pipeline up to and including
`cv2.cvtColor(lab, cv2.COLOR_LAB2BGR)` — the point where `frame` is
rebound — and `lutChain` for the gamma-LUT construction and `cv2.LUT`. -/
structure Cv2Ops (α : Type) where
  claheChain : α → Option α
  lutChain : α → Option α

/-- `enhance_frame`: the whole body is one `try`; on an exception the
current binding of `frame` is returned. -/
def enhance_frame {α : Type} (cv : Cv2Ops α) (frame : α) : α :=
  match cv.claheChain frame with
  | none => frame
  | some frame1 =>
    match cv.lutChain frame1 with
    | none => frame1
    | some frame2 => frame2

/-! ### Spec-side definitions and concrete fixtures used by the claims. -/

/-- Modelled from the spec (§4.3): `roi_w = floor(w*s)`,
`roi_h = floor(roi_w*9/16)`, centered `x0 = (w-roi_w)/2`,
`y0 = (h-roi_h)/2`. -/
def roiSpecRect (w h : ℕ) (s : ℚ) : Roi :=
  let rw := ⌊(w : ℚ) * s⌋
  let rh := ⌊(rw : ℚ) * 9 / 16⌋
  let x0 := ((w : ℤ) - rw) / 2
  let y0 := ((h : ℤ) - rh) / 2
  ⟨rw, rh, x0, y0, x0 + rw, y0 + rh⟩

/-- The §8 scenario detection: tip at normalized `(0.5, 0.5)`, proximal
joint at planar distance `0.05`. -/
def handScenario : Hand := ⟨⟨1/2, 1/2, 0⟩, ⟨9/20, 1/2, 0⟩⟩

/-- A detection whose fingertip sits at the frame's top-left corner,
clearly extended. -/
def handCorner : Hand := ⟨⟨0, 0, 0⟩, ⟨1/2, 1/2, 0⟩⟩

/-- A machine where the configured USB device never yields a frame but
both OpenCV device 0 and the Picamera2 module work. -/
def envUsbDead : CamEnv := ⟨true, fun _ => false, true, fun _ => true, true, true⟩

/-- A machine where no capture backend works at all. -/
def envAllDead : CamEnv := ⟨true, fun _ => false, false, fun _ => false, false, false⟩

/-- External image ops where the contrast pipeline succeeds (and actually
changes the frame) while the gamma-LUT step raises. -/
def cvLutFails : Cv2Ops ℕ := ⟨fun n => some (n + 1), fun _ => none⟩

/-- An accepted tip for slot 0 at raw position `(100, 100)`. -/
def tipA : AccTip := ⟨(100, 100), (100, 100), 0⟩

/-- An accepted tip for slot 0 at raw position `(200, 200)`. -/
def tipB : AccTip := ⟨(200, 200), (200, 200), 0⟩

/-- Cycle 1 of the C1 scenario: slot 0 appears at `t = 0`. -/
def c1s1 : TrackState := cycleLocked 30 initState [tipA] 0

/-- Cycle 2: slot 0 produces no detection at `t = 1`; its age `1` exceeds
the `0.25 s` grace window, so the slot is evicted. -/
def c1s2 : TrackState := cycleLocked 30 c1s1 [] 1

/-- Cycle 3: slot 0 re-appears at `t = 2` with raw position `(200, 200)`. -/
def c1s3 : TrackState := cycleLocked 30 c1s2 [tipB] 2

/-- Repeated identical raw samples `c` fed to a filter at a fixed period
`Δ` (each sample timestamped one period after the previous one). -/
def iterSame (c Δ : ℚ) (f : OneEuro1D) : ℕ → OneEuro1D
  | 0 => f
  | n + 1 =>
    ((iterSame c Δ f n).update c ((iterSame c Δ f n).lastT.getD 0 + Δ)).1

/-- A tracker state holding one slot (index 0) last seen at `t = 0` with
smoothed position `(100, 100)`. -/
def sRetained : TrackState :=
  ⟨[⟨(100, 100), 0, some (100, 100)⟩], [(0, 0)], [(0, (100, 100))],
    [(0, (100, 100))], [], []⟩

/-- A screen filter seeded with raw value `100` at time `0`. -/
def seededFilter : OneEuro1D := ((mkOneEuro 30 1 (7/1000) 1).update 100 0).1

/-! ## Helper lemmas. -/

theorem alGet_alSet_self {α : Type} (l : List (ℕ × α)) (k : ℕ) (v : α) :
    alGet (alSet l k v) k = some v := by
  induction l with
  | nil => simp [alSet, alGet]
  | cons p t ih =>
    by_cases hk : p.1 = k
    · simp [alSet, hk, alGet]
    · simpa [alSet, hk, alGet] using ih

theorem alGet_alSet_ne {α : Type} (l : List (ℕ × α)) (k k' : ℕ) (v : α)
    (h : k' ≠ k) : alGet (alSet l k v) k' = alGet l k' := by
  induction l with
  | nil => simp [alSet, alGet, h, Ne.symm h]
  | cons p t ih =>
    by_cases hk : p.1 = k
    · subst hk
      simp [alSet, alGet, h, Ne.symm h]
    · by_cases hk' : p.1 = k'
      · simp [alSet, hk, alGet, hk', h]
      · simpa [alSet, hk, alGet, hk'] using ih

theorem alGet_alErase_self {α : Type} (l : List (ℕ × α)) (k : ℕ) :
    alGet (alErase l k) k = none := by
  induction l with
  | nil => simp [alErase, alGet]
  | cons p t ih =>
    by_cases hk : p.1 = k
    · simpa [alErase, List.filter_cons, hk, alGet] using ih
    · simpa [alErase, List.filter_cons, hk, alGet] using ih

theorem alGet_alErase_ne {α : Type} (l : List (ℕ × α)) (k k' : ℕ)
    (h : k' ≠ k) : alGet (alErase l k) k' = alGet l k' := by
  induction l with
  | nil => simp [alErase, alGet]
  | cons p t ih =>
    by_cases hk : p.1 = k
    · subst hk
      simpa [alErase, List.filter_cons, alGet, h, Ne.symm h] using ih
    · by_cases hk' : p.1 = k'
      · simp [alErase, List.filter_cons, hk, alGet, hk', h]
      · simpa [alErase, List.filter_cons, hk, alGet, hk'] using ih

theorem alGet_isSome_iff_mem {α : Type} (l : List (ℕ × α)) (k : ℕ) :
    (alGet l k).isSome = true ↔ k ∈ alKeys l := by
  induction l with
  | nil => simp [alGet, alKeys]
  | cons p t ih =>
    by_cases hk : p.1 = k
    · simp [alGet, hk, alKeys]
    · simpa [alGet, hk, alKeys, Ne.symm hk] using ih

theorem alGet_eq_none_iff_not_mem {α : Type} (l : List (ℕ × α)) (k : ℕ) :
    alGet l k = none ↔ k ∉ alKeys l := by
  rw [← alGet_isSome_iff_mem]
  cases alGet l k <;> simp

theorem pyInt_of_nonneg {q : ℚ} (h : 0 ≤ q) : pyInt q = ⌊q⌋ := by
  simp [pyInt, not_lt.mpr h]

theorem pyInt_bounds {q : ℚ} {n : ℕ} (h0 : 0 ≤ q) (h1 : q ≤ (n : ℚ)) :
    0 ≤ pyInt q ∧ pyInt q ≤ (n : ℤ) := by
  rw [pyInt_of_nonneg h0]
  constructor
  · exact Int.floor_nonneg.mpr h0
  · calc ⌊q⌋ ≤ ⌊(n : ℚ)⌋ := Int.floor_le_floor h1
    _ = (n : ℤ) := Int.floor_natCast n

/-- Evaluating the banker's rounding away from a tie: any value strictly
within half a unit of the integer `n` rounds to `n`. -/
theorem pyRound_eq (q : ℚ) (n : ℤ) (hlo : (n : ℚ) - 1/2 < q)
    (hhi : q < (n : ℚ) + 1/2) : pyRound q = n := by
  by_cases hq : (n : ℚ) ≤ q
  · have hf : ⌊q⌋ = n := Int.floor_eq_iff.mpr ⟨hq, by linarith⟩
    have h1 : q - ((⌊q⌋ : ℤ) : ℚ) < 1/2 := by rw [hf]; linarith
    simp only [pyRound]
    rw [if_pos h1]
    exact hf
  · have hf : ⌊q⌋ = n - 1 := by
      apply Int.floor_eq_iff.mpr
      constructor
      · push_cast
        linarith
      · push_cast
        linarith
    have h1 : ¬ (q - ((⌊q⌋ : ℤ) : ℚ) < 1/2) := by rw [hf]; push_cast; linarith
    have h2 : 1/2 < q - ((⌊q⌋ : ℤ) : ℚ) := by rw [hf]; push_cast; linarith
    simp only [pyRound]
    rw [if_neg h1, if_pos h2, hf]
    omega

/-- The clamped ROI-relative fraction lies in `[0, 1]` as soon as the gate
interval is non-degenerate (`lo ≤ hi`) and `hi = lo + L`. -/
theorem clampFrac_mem (a lo hi L : ℤ) (hlohi : lo ≤ hi) (hhi : hi = lo + L) :
    0 ≤ ((min (max a lo) hi - lo : ℤ) : ℚ) / ((max 1 L : ℤ) : ℚ)
    ∧ ((min (max a lo) hi - lo : ℤ) : ℚ) / ((max 1 L : ℤ) : ℚ) ≤ 1 := by
  have hm_lo : lo ≤ min (max a lo) hi := le_min (le_max_right a lo) hlohi
  have hm_hi : min (max a lo) hi ≤ hi := min_le_right _ _
  have hnum0 : (0 : ℤ) ≤ min (max a lo) hi - lo := by omega
  have hnumL : min (max a lo) hi - lo ≤ max 1 L := by
    have : min (max a lo) hi - lo ≤ L := by omega
    exact le_trans this (le_max_right 1 L)
  have hden : (0 : ℚ) < ((max 1 L : ℤ) : ℚ) := by
    have : (1 : ℤ) ≤ max 1 L := le_max_left 1 L
    exact_mod_cast lt_of_lt_of_le Int.zero_lt_one this
  constructor
  · apply div_nonneg _ (le_of_lt hden)
    exact_mod_cast hnum0
  · rw [div_le_one hden]
    exact_mod_cast hnumL

theorem runWorker_none (rs : ℚ) (oW oH : ℕ) (fq : ℚ) (s : TrackState)
    (inputs : List (Option (ℕ × ℕ × List Hand) × ℚ))
    (h : ∀ p ∈ inputs, p.1 = none) :
    runWorker rs oW oH fq s inputs = s := by
  induction inputs generalizing s with
  | nil => rfl
  | cons p t ih =>
    obtain ⟨f, time⟩ := p
    have hp : f = none := h (f, time) (List.mem_cons_self _ t)
    subst hp
    exact ih s fun q hq => h q (List.mem_cons_of_mem _ hq)

/-! ## Claim C2: detector-side remote path. -/

theorem serverTips_eq_aux (w h : ℕ) (l : List (ℕ × Hand)) :
    (l.filterMap fun p => serverTipOf w h p.1 p.2) =
      (l.filter fun p => extendedTest p.2.tip p.2.pip).map fun p =>
        ⟨p.1, (pyInt (p.2.tip.x * w), pyInt (p.2.tip.y * h)),
          (pyInt (p.2.tip.x * PROJECTOR_W), pyInt (p.2.tip.y * PROJECTOR_H))⟩ := by
  induction l with
  | nil => rfl
  | cons p t ih =>
    by_cases hext : extendedTest p.2.tip p.2.pip
    · simpa [serverTipOf, hext, List.filter_cons] using ih
    · simpa [serverTipOf, hext, List.filter_cons] using ih

/-- C2 (counterexample): the server emits a detection whose fingertip pixel
`(0, 0)` is outside the centered 16:9 ROI of the same frame — the
detector-side process applies no ROI gate, so the claimed per-emission
invariant fails. -/
theorem c2_counterexample :
    serverTips 640 480 [handCorner] = [⟨0, (0, 0), (0, 0)⟩]
    ∧ insideRoi 640 480 (95/100) (0, 0) = false := by
  constructor
  · norm_num [serverTips, serverTipOf, handCorner, extendedTest, pyInt,
      PROJECTOR_W, PROJECTOR_H, List.enum, List.filterMap_cons]
  · norm_num [insideRoi, roiRect, pyInt, Int.fdiv]

/-- C2 (amended): on the remote path the detector-side process applies only
the extension test; every extended detection is emitted regardless of its
position, and its output point is the tip's full-frame normalized
coordinate scaled straight into the 1920x1080 output space — no ROI gate,
no ROI-relative clamp. -/
theorem c2_remote_extension_only (w h : ℕ) (hands : List Hand) :
    serverTips w h hands = specRemoteTips w h hands :=
  serverTips_eq_aux w h hands.enum

/-! ## Claim C3: camera open fallback order. -/

/-- C3 (counterexample): with a dead USB device but a working OpenCV
device 0 and a working Picamera2, the local tracker opens the Picamera2 —
the second OpenCV device is only tried after the SoC camera, contradicting
the claimed order (which the remote client does follow). -/
theorem c3_counterexample :
    trackerOpen envUsbDead = .picam
    ∧ networkOpen envUsbDead = .cv0
    ∧ envUsbDead.cv0OpenOk = true := by
  refine ⟨?_, ?_, rfl⟩
  · simp [trackerOpen, envUsbDead]
  · simp [networkOpen, tryReadLoop, envUsbDead]

/-- C3 (amended): the remote client's open follows USB index (three read
attempts) → OpenCV device 0 (three read attempts) → Picamera2 → nothing;
the local tracker's open follows USB index (single read attempt) →
Picamera2 → OpenCV device 0 (taken unverified whenever its constructor
succeeds) → nothing; and a tracker whose captures all fail still serves an
empty snapshot list instead of crashing. -/
theorem c3_open_order (e : CamEnv) :
    ((e.usbOpenOk && tryReadLoop e.usbRead 3) = true → networkOpen e = .usb)
    ∧ ((e.usbOpenOk && tryReadLoop e.usbRead 3) = false →
        (e.cv0OpenOk && tryReadLoop e.cv0Read 3) = true → networkOpen e = .cv0)
    ∧ ((e.usbOpenOk && tryReadLoop e.usbRead 3) = false →
        (e.cv0OpenOk && tryReadLoop e.cv0Read 3) = false →
        (e.picamPresent && e.picamOk) = true → networkOpen e = .picam)
    ∧ ((e.usbOpenOk && tryReadLoop e.usbRead 3) = false →
        (e.cv0OpenOk && tryReadLoop e.cv0Read 3) = false →
        (e.picamPresent && e.picamOk) = false → networkOpen e = .nocam)
    ∧ ((e.usbOpenOk && e.usbRead 0) = true → trackerOpen e = .usb)
    ∧ ((e.usbOpenOk && e.usbRead 0) = false →
        (e.picamPresent && e.picamOk) = true → trackerOpen e = .picam)
    ∧ ((e.usbOpenOk && e.usbRead 0) = false →
        (e.picamPresent && e.picamOk) = false →
        e.cv0OpenOk = true → trackerOpen e = .cv0)
    ∧ ((e.usbOpenOk && e.usbRead 0) = false →
        (e.picamPresent && e.picamOk) = false →
        e.cv0OpenOk = false → trackerOpen e = .nocam)
    ∧ (∀ (rs fq : ℚ) (oW oH : ℕ) (times : List ℚ),
        getTips (runWorker rs oW oH fq initState
          (times.map fun t => (none, t))) = []) := by
  refine ⟨?_, ?_, ?_, ?_, ?_, ?_, ?_, ?_, ?_⟩
  · intro h1
    simp [networkOpen, h1]
  · intro h1 h2
    simp [networkOpen, h1, h2]
  · intro h1 h2 h3
    simp [networkOpen, h1, h2, h3]
  · intro h1 h2 h3
    simp [networkOpen, h1, h2, h3]
  · intro h1
    simp [trackerOpen, h1]
  · intro h1 h2
    simp [trackerOpen, h1, h2]
  · intro h1 h2 h3
    simp [trackerOpen, h1, h2, h3]
  · intro h1 h2 h3
    simp [trackerOpen, h1, h2, h3]
  · intro rs fq oW oH times
    rw [runWorker_none rs oW oH fq initState _ (by simp)]
    rfl

/-- Witness for C3's amended theorem: on the machine with no working
backend the local tracker ends with no camera at all. -/
theorem c3_open_order_witness : trackerOpen envAllDead = .nocam :=
  (c3_open_order envAllDead).2.2.2.2.2.2.2.1
    (by simp [envAllDead]) (by simp [envAllDead]) (by simp [envAllDead])

/-! ## Claim C4: the frame conditioner. -/

/-- C4 (counterexample): when the contrast pipeline succeeds (changing the
frame) and the gamma-LUT step then fails, `enhance_frame` returns the
contrast-normalized intermediate — a partially transformed frame, not the
input unchanged. -/
theorem c4_counterexample :
    cvLutFails.lutChain 1 = none ∧ enhance_frame cvLutFails 0 ≠ 0 := by
  constructor
  · rfl
  · simp [enhance_frame, cvLutFails]

/-- C4 (amended): `enhance_frame` never raises (it is a total function);
a failure before the frame variable is rebound returns the input
unchanged, but a failure of the final gamma-LUT step returns the
contrast-normalized intermediate frame, and when all steps succeed the
fully transformed frame is returned. -/
theorem c4_enhance_steps {α : Type} (cv : Cv2Ops α) (f : α) :
    (cv.claheChain f = none → enhance_frame cv f = f)
    ∧ (∀ g, cv.claheChain f = some g → cv.lutChain g = none →
        enhance_frame cv f = g)
    ∧ (∀ g r, cv.claheChain f = some g → cv.lutChain g = some r →
        enhance_frame cv f = r) := by
  refine ⟨?_, ?_, ?_⟩
  · intro h
    simp [enhance_frame, h]
  · intro g h1 h2
    simp [enhance_frame, h1, h2]
  · intro g r h1 h2
    simp [enhance_frame, h1, h2]

/-- Witness for C4's amended theorem at the concrete failing LUT step. -/
theorem c4_enhance_steps_witness : enhance_frame cvLutFails 0 = 1 :=
  (c4_enhance_steps cvLutFails 0).2.1 1 rfl rfl

/-! ## Claim C8: no camera means an always-empty snapshot. -/

/-- C8: when every capture fails (in particular when no backend opened),
any number of worker cycles leaves the published snapshot empty, so
`get_tips()` returns the empty list and `get_primary()` returns none; both
are total functions — the consumer can never observe an exception. -/
theorem c8_empty_on_no_camera (rs fq : ℚ) (oW oH : ℕ)
    (inputs : List (Option (ℕ × ℕ × List Hand) × ℚ))
    (h : ∀ p ∈ inputs, p.1 = none) :
    getTips (runWorker rs oW oH fq initState inputs) = []
    ∧ getPrimary (runWorker rs oW oH fq initState inputs) = none := by
  rw [runWorker_none rs oW oH fq initState inputs h]
  exact ⟨rfl, rfl⟩

/-- Witness for C8 after two failed capture cycles. -/
theorem c8_empty_on_no_camera_witness :
    getTips (runWorker (98/100) 30 1920 1080 initState
      [(none, 0), (none, 1/2)]) = []
    ∧ getPrimary (runWorker (98/100) 30 1920 1080 initState
      [(none, 0), (none, 1/2)]) = none :=
  c8_empty_on_no_camera (98/100) 30 1920 1080 [(none, 0), (none, 1/2)]
    (by simp)

/-! ## Claim C9: the ROI formulas and the 640x480 scenario. -/

/-- Projecting the ROI record: the right edge is the left edge plus the
width, and the bottom edge the top edge plus the height. -/
theorem roiRect_ends (w h : ℕ) (s : ℚ) :
    (roiRect w h s).xEnd = (roiRect w h s).xStart + (roiRect w h s).roiW
    ∧ (roiRect w h s).yEnd = (roiRect w h s).yStart + (roiRect w h s).roiH :=
  ⟨rfl, rfl⟩

/-- C9: for every frame size and scale in `(0, 1]` the worker's ROI agrees
with the spec formulas `roi_w = floor(w*s)`, `roi_h = floor(roi_w*9/16)`,
`x0 = (w-roi_w)/2`, `y0 = (h-roi_h)/2`; concretely a 640x480 frame at
scale 0.95 yields `roi_w = 608`, `roi_h = 342`, `x0 = 16`, `y0 = 69`, and
the extended tip at pixel `(320, 240)` is accepted and mapped to the
output point `(960, 540) = (OUT_W/2, OUT_H/2)`. -/
theorem c9_roi_formula :
    (∀ (w h : ℕ) (s : ℚ), 0 < s → s ≤ 1 → roiRect w h s = roiSpecRect w h s)
    ∧ roiRect 640 480 (95/100) = ⟨608, 342, 16, 69, 624, 411⟩
    ∧ acceptTip 640 480 (95/100) 1920 1080 0 handScenario =
        some ⟨(960, 540), (320, 240), 0⟩ := by
  refine ⟨?_, ?_, ?_⟩
  · intro w h s hs _
    have hws : (0 : ℚ) ≤ (w : ℚ) * s := mul_nonneg (Nat.cast_nonneg w) hs.le
    have hrw : (0 : ℤ) ≤ ⌊(w : ℚ) * s⌋ := Int.floor_nonneg.mpr hws
    have h916 : (0 : ℚ) ≤ (⌊(w : ℚ) * s⌋ : ℚ) * 9 / 16 := by
      have : (0 : ℚ) ≤ (⌊(w : ℚ) * s⌋ : ℚ) := by exact_mod_cast hrw
      positivity
    simp only [roiRect, roiSpecRect, pyInt_of_nonneg hws, pyInt_of_nonneg h916,
      Int.fdiv_eq_ediv _ (by norm_num : (0 : ℤ) ≤ 2)]
  · norm_num [roiRect, pyInt, Int.fdiv]
  · norm_num [acceptTip, roiRect, pyInt, Int.fdiv, extendedTest, handScenario]

/-- Witness for C9's universally quantified part at a concrete frame. -/
theorem c9_roi_formula_witness :
    roiRect 320 240 (1/2) = roiSpecRect 320 240 (1/2) :=
  c9_roi_formula.1 320 240 (1/2) (by norm_num) (by norm_num)

/-! ## Claim C5: accepted output points stay inside the output space. -/

/-- C5: every tip accepted by the worker has its output point inside
`[0, OUT_W] x [0, OUT_H]`: the ROI-relative fraction is computed from the
pixel clamped to the ROI rectangle, so it lies in `[0, 1]` before being
scaled into the fixed output space. -/
theorem c5_output_bounds (w h : ℕ) (s : ℚ) (outW outH : ℕ) (idx : ℕ)
    (hand : Hand) (t : AccTip)
    (ht : acceptTip w h s outW outH idx hand = some t) :
    0 ≤ t.screen.1 ∧ t.screen.1 ≤ (outW : ℤ)
    ∧ 0 ≤ t.screen.2 ∧ t.screen.2 ≤ (outH : ℤ) := by
  simp only [acceptTip] at ht
  split at ht
  case isFalse => simp at ht
  case isTrue hc =>
    obtain ⟨h1, h2, h3, h4, _⟩ := hc
    cases ht
    have hx := clampFrac_mem (pyInt (hand.tip.x * w)) (roiRect w h s).xStart
      (roiRect w h s).xEnd (roiRect w h s).roiW (le_trans h1 h2)
      (roiRect_ends w h s).1
    have hy := clampFrac_mem (pyInt (hand.tip.y * h)) (roiRect w h s).yStart
      (roiRect w h s).yEnd (roiRect w h s).roiH (le_trans h3 h4)
      (roiRect_ends w h s).2
    have bx := pyInt_bounds
      (mul_nonneg hx.1 (Nat.cast_nonneg outW))
      (mul_le_of_le_one_left (Nat.cast_nonneg outW) hx.2)
    have by' := pyInt_bounds
      (mul_nonneg hy.1 (Nat.cast_nonneg outH))
      (mul_le_of_le_one_left (Nat.cast_nonneg outH) hy.2)
    exact ⟨bx.1, bx.2, by'.1, by'.2⟩

/-- Witness for C5 at the accepted 640x480 scenario tip. -/
theorem c5_output_bounds_witness :
    0 ≤ (AccTip.mk (960, 540) (320, 240) 0).screen.1
    ∧ (AccTip.mk (960, 540) (320, 240) 0).screen.1 ≤ ((1920 : ℕ) : ℤ)
    ∧ 0 ≤ (AccTip.mk (960, 540) (320, 240) 0).screen.2
    ∧ (AccTip.mk (960, 540) (320, 240) 0).screen.2 ≤ ((1080 : ℕ) : ℤ) :=
  c5_output_bounds 640 480 (95/100) 1920 1080 0 handScenario
    ⟨(960, 540), (320, 240), 0⟩
    (by norm_num [acceptTip, roiRect, pyInt, Int.fdiv, extendedTest,
      handScenario])

/-! ## Claim C1: filter state across pruning. -/

theorem tipStep_filters_isSome (freq now : ℚ) (acc : TipAcc) (t : AccTip)
    (hid : ℕ) (h1 : (alGet acc.fs hid).isSome = true)
    (h2 : (alGet acc.fr hid).isSome = true) :
    (alGet (tipStep freq now acc t).fs hid).isSome = true
    ∧ (alGet (tipStep freq now acc t).fr hid).isSome = true := by
  by_cases hk : hid = t.hand_idx
  · subst hk
    constructor <;> simp [tipStep, alGet_alSet_self]
  · have hfs : alGet (tipStep freq now acc t).fs hid = alGet acc.fs hid := by
      simp only [tipStep]
      rw [alGet_alSet_ne _ _ _ _ hk]
      split
      · rfl
      · exact alGet_alSet_ne _ _ _ _ hk
    have hfr : alGet (tipStep freq now acc t).fr hid = alGet acc.fr hid := by
      simp only [tipStep]
      rw [alGet_alSet_ne _ _ _ _ hk]
      split
      · rfl
      · exact alGet_alSet_ne _ _ _ _ hk
    rw [hfs, hfr]
    exact ⟨h1, h2⟩

theorem tipsFold_filters_isSome (freq now : ℚ) (tips : List AccTip)
    (acc : TipAcc) (hid : ℕ) (h1 : (alGet acc.fs hid).isSome = true)
    (h2 : (alGet acc.fr hid).isSome = true) :
    (alGet (tips.foldl (tipStep freq now) acc).fs hid).isSome = true
    ∧ (alGet (tips.foldl (tipStep freq now) acc).fr hid).isSome = true := by
  induction tips generalizing acc with
  | nil => exact ⟨h1, h2⟩
  | cons t rest ih =>
    have hstep := tipStep_filters_isSome freq now acc t hid h1 h2
    exact ih (tipStep freq now acc t) hstep.1 hstep.2

set_option maxHeartbeats 4000000

/-- C1 (counterexample): after slot 0 is evicted (cycle 2, age 1 s > grace
window), its One-Euro filter state is still present in the filter
dictionary while its position and last-seen entries are gone; when the
slot re-appears in cycle 3 with raw position `(200, 200)`, the worker
publishes `(194, 194)` — the pre-eviction filter state was reused, where a
fresh (unseeded) filter would have passed `(200, 200)` through unchanged. -/
theorem c1_counterexample :
    (alGet c1s2.filtersScreen 0).isSome = true
    ∧ alGet c1s2.smoothed 0 = none
    ∧ alGet c1s2.lastSeen 0 = none
    ∧ alGet c1s3.smoothed 0 = some (194, 194)
    ∧ ((194, 194) : Pt) ≠ (200, 200) := by
  refine ⟨?_, ?_, ?_, ?_, by decide⟩ <;>
    norm_num [c1s3, c1s2, c1s1, cycleLocked, tipStep, retainStep,
      buildSnapshot, alSet, alGet, alErase, alHas, alKeys, tipA, tipB,
      initState, freshScreenFilters, freshRoiFilters, mkOneEuro,
      OneEuro1D.update, LowPass.apply, alphaCoef, mathPi,
      List.insertionSort, List.orderedInsert, List.filter_cons]
  all_goals apply pyRound_eq
  all_goals norm_num [abs_of_nonneg]

/-- C1 (amended): pruning removes a stale slot's smoothed position and
last-seen entry but never its filter state — the filter dictionaries
survive every cycle (unchanged when the slot is absent from the cycle's
accepted set), so a later re-creation of the same slot index resumes from
the pre-eviction filter state instead of a fresh one. -/
theorem c1_filters_persist (freq : ℚ) (s : TrackState) (tips : List AccTip)
    (now : ℚ) (hid : ℕ)
    (h1 : (alGet s.filtersScreen hid).isSome = true)
    (h2 : (alGet s.filtersRoi hid).isSome = true) :
    ((alGet (cycleLocked freq s tips now).filtersScreen hid).isSome = true
      ∧ (alGet (cycleLocked freq s tips now).filtersRoi hid).isSome = true)
    ∧ (cycleLocked freq s [] now).filtersScreen = s.filtersScreen
    ∧ (cycleLocked freq s [] now).filtersRoi = s.filtersRoi := by
  refine ⟨?_, rfl, rfl⟩
  exact tipsFold_filters_isSome freq now tips
    ⟨s.filtersScreen, s.filtersRoi, s.lastSeen, [], []⟩ hid h1 h2

/-- Witness for C1's amended theorem: the slot-0 filters of the post-cycle-1
state survive the evicting cycle at `t = 1`. -/
theorem c1_filters_persist_witness :
    (alGet (cycleLocked 30 c1s1 [] 1).filtersScreen 0).isSome = true
    ∧ (alGet (cycleLocked 30 c1s1 [] 1).filtersRoi 0).isSome = true :=
  (c1_filters_persist 30 c1s1 [] 1 0
    (by norm_num [c1s1, cycleLocked, tipStep, retainStep, buildSnapshot,
      alSet, alGet, alErase, alHas, alKeys, tipA, initState,
      freshScreenFilters, freshRoiFilters, mkOneEuro, OneEuro1D.update,
      LowPass.apply, alphaCoef, mathPi, pyRound, List.insertionSort,
      List.orderedInsert])
    (by norm_num [c1s1, cycleLocked, tipStep, retainStep, buildSnapshot,
      alSet, alGet, alErase, alHas, alKeys, tipA, initState,
      freshScreenFilters, freshRoiFilters, mkOneEuro, OneEuro1D.update,
      LowPass.apply, alphaCoef, mathPi, pyRound, List.insertionSort,
      List.orderedInsert])).1

/-! ## Claim C6: the grace window. -/

theorem alHas_eq_false_iff {α : Type} (l : List (ℕ × α)) (k : ℕ) :
    alHas l k = false ↔ alGet l k = none := by
  unfold alHas
  cases alGet l k <;> simp

theorem tipsFold_untouched (freq now : ℚ) (tips : List AccTip) (acc : TipAcc)
    (hid : ℕ) (h : ∀ t ∈ tips, t.hand_idx ≠ hid) :
    alGet (tips.foldl (tipStep freq now) acc).ns hid = alGet acc.ns hid
    ∧ alGet (tips.foldl (tipStep freq now) acc).ls hid = alGet acc.ls hid := by
  induction tips generalizing acc with
  | nil => exact ⟨rfl, rfl⟩
  | cons t rest ih =>
    have hne : hid ≠ t.hand_idx :=
      fun hc => h t (List.mem_cons_self t rest) hc.symm
    have hstep_ns : alGet (tipStep freq now acc t).ns hid = alGet acc.ns hid := by
      simp only [tipStep]
      exact alGet_alSet_ne _ _ _ _ hne
    have hstep_ls : alGet (tipStep freq now acc t).ls hid = alGet acc.ls hid := by
      simp only [tipStep]
      exact alGet_alSet_ne _ _ _ _ hne
    have hrest := ih (tipStep freq now acc t)
      (fun t' ht' => h t' (List.mem_cons_of_mem t ht'))
    exact ⟨hrest.1.trans hstep_ns, hrest.2.trans hstep_ls⟩

theorem retainStep_untouched (now : ℚ) (oldRoi : List (ℕ × Pt))
    (acc : List (ℕ × Pt) × List (ℕ × Pt) × List (ℕ × ℚ)) (e : ℕ × Pt)
    (hid : ℕ) (hne : e.1 ≠ hid) :
    alGet (retainStep now oldRoi acc e).1 hid = alGet acc.1 hid
    ∧ alGet (retainStep now oldRoi acc e).2.2 hid = alGet acc.2.2 hid := by
  have hne' : hid ≠ e.1 := Ne.symm hne
  simp only [retainStep]
  split
  · exact ⟨rfl, rfl⟩
  · split
    · exact ⟨alGet_alSet_ne _ _ _ _ hne', rfl⟩
    · exact ⟨rfl, alGet_alErase_ne _ _ _ hne'⟩

theorem retainFold_untouched (now : ℚ) (oldRoi : List (ℕ × Pt))
    (entries : List (ℕ × Pt))
    (acc : List (ℕ × Pt) × List (ℕ × Pt) × List (ℕ × ℚ)) (hid : ℕ)
    (h : ∀ e ∈ entries, e.1 ≠ hid) :
    alGet (entries.foldl (retainStep now oldRoi) acc).1 hid = alGet acc.1 hid
    ∧ alGet (entries.foldl (retainStep now oldRoi) acc).2.2 hid
      = alGet acc.2.2 hid := by
  induction entries generalizing acc with
  | nil => exact ⟨rfl, rfl⟩
  | cons e rest ih =>
    have hstep := retainStep_untouched now oldRoi acc e hid
      (h e (List.mem_cons_self e rest))
    have hrest := ih (retainStep now oldRoi acc e)
      (fun e' he' => h e' (List.mem_cons_of_mem e he'))
    exact ⟨hrest.1.trans hstep.1, hrest.2.trans hstep.2⟩

theorem retainFold_process (now : ℚ) (oldRoi : List (ℕ × Pt))
    (entries : List (ℕ × Pt)) (hid : ℕ) (p : Pt) (t0 : ℚ)
    (acc : List (ℕ × Pt) × List (ℕ × Pt) × List (ℕ × ℚ))
    (hmem : (hid, p) ∈ entries)
    (hnodup : (entries.map Prod.fst).Nodup)
    (hns : alGet acc.1 hid = none)
    (hls : alGet acc.2.2 hid = some t0) :
    (now - t0 < 1/4 →
      alGet (entries.foldl (retainStep now oldRoi) acc).1 hid = some p)
    ∧ (1/4 < now - t0 →
      alGet (entries.foldl (retainStep now oldRoi) acc).1 hid = none
      ∧ alGet (entries.foldl (retainStep now oldRoi) acc).2.2 hid = none) := by
  induction entries generalizing acc with
  | nil => cases hmem
  | cons e rest ih =>
    have hnodup' := List.nodup_cons.mp hnodup
    rcases List.mem_cons.mp hmem with he | he
    · -- the head is the slot's entry; the tail holds no other entry for it
      subst he
      have hnot : hid ∉ rest.map Prod.fst := by simpa using hnodup'.1
      have hrest : ∀ e' ∈ rest, e'.1 ≠ hid := by
        intro e' he' hc
        apply hnot
        rw [← hc]
        exact List.mem_map_of_mem Prod.fst he'
      have hhas : alHas acc.1 hid = false := (alHas_eq_false_iff _ _).mpr hns
      constructor
      · intro hlt
        have hstep : retainStep now oldRoi acc (hid, p)
            = (alSet acc.1 hid p,
               match alGet oldRoi hid with
               | some r => alSet acc.2.1 hid r
               | none => acc.2.1,
               acc.2.2) := by
          simp only [retainStep, hhas, Bool.false_eq_true, if_false, hls,
            Option.getD_some]
          rw [if_pos hlt]
        have hfold := retainFold_untouched now oldRoi rest
          (retainStep now oldRoi acc (hid, p)) hid hrest
        rw [List.foldl_cons, hfold.1, hstep]
        exact alGet_alSet_self _ _ _
      · intro hgt
        have hstep : retainStep now oldRoi acc (hid, p)
            = (acc.1, acc.2.1, alErase acc.2.2 hid) := by
          simp only [retainStep, hhas, Bool.false_eq_true, if_false, hls,
            Option.getD_some]
          rw [if_neg (by linarith)]
        have hfold := retainFold_untouched now oldRoi rest
          (retainStep now oldRoi acc (hid, p)) hid hrest
        constructor
        · rw [List.foldl_cons, hfold.1, hstep]
          exact hns
        · rw [List.foldl_cons, hfold.2, hstep]
          exact alGet_alErase_self _ _
    · -- the slot's entry lies in the tail; the head is some other slot
      have hne : e.1 ≠ hid := by
        intro hc
        apply hnodup'.1
        rw [hc]
        exact List.mem_map_of_mem Prod.fst he
      have hstep := retainStep_untouched now oldRoi acc e hid hne
      exact ih (retainStep now oldRoi acc e) he hnodup'.2
        (hstep.1.trans hns) (hstep.2.trans hls)

theorem buildSnapshot_mem (ns nr : List (ℕ × Pt)) (k : ℕ) (p : Pt)
    (hk : alGet ns k = some p) :
    ∃ item ∈ buildSnapshot ns nr, item.hand_idx = k ∧ item.screen = p := by
  have hmem : k ∈ alKeys ns := (alGet_isSome_iff_mem ns k).mp (by rw [hk]; rfl)
  have hsorted : k ∈ List.insertionSort (· ≤ ·) (alKeys ns) :=
    (List.mem_insertionSort _).mpr hmem
  refine ⟨⟨(alGet ns k).getD (0, 0), k, alGet nr k⟩, ?_, rfl, ?_⟩
  · exact List.mem_map_of_mem _ hsorted
  · rw [hk]
    rfl

theorem buildSnapshot_not_mem (ns nr : List (ℕ × Pt)) (k : ℕ)
    (hk : alGet ns k = none) :
    ∀ item ∈ buildSnapshot ns nr, item.hand_idx ≠ k := by
  intro item hitem hc
  obtain ⟨k', hk', hfk⟩ := List.mem_map.mp hitem
  have hkk : k' = k := by
    rw [← hfk] at hc
    exact hc
  subst hkk
  have hmem : k' ∈ alKeys ns := (List.mem_insertionSort _).mp hk'
  exact (alGet_eq_none_iff_not_mem ns k').mp hk hmem

/-- C6: a slot absent from the current cycle's accepted set is retained —
still published with its last smoothed position unchanged — whenever
`now - last_seen` is strictly below the 250 ms grace window, and is
evicted (absent from the slot map, the snapshot, and last_seen) whenever
`now - last_seen` strictly exceeds it. -/
theorem c6_grace_window (freq : ℚ) (s : TrackState) (tips : List AccTip)
    (now t0 : ℚ) (hid : ℕ) (p : Pt)
    (hsm : (hid, p) ∈ s.smoothed)
    (hnodup : (s.smoothed.map Prod.fst).Nodup)
    (hls : alGet s.lastSeen hid = some t0)
    (habsent : ∀ t ∈ tips, t.hand_idx ≠ hid) :
    (now - t0 < 1/4 →
      alGet (cycleLocked freq s tips now).smoothed hid = some p
      ∧ ∃ item ∈ (cycleLocked freq s tips now).latestTips,
          item.hand_idx = hid ∧ item.screen = p)
    ∧ (1/4 < now - t0 →
      alGet (cycleLocked freq s tips now).smoothed hid = none
      ∧ alGet (cycleLocked freq s tips now).lastSeen hid = none
      ∧ ∀ item ∈ (cycleLocked freq s tips now).latestTips,
          item.hand_idx ≠ hid) := by
  have htips := tipsFold_untouched freq now tips
    ⟨s.filtersScreen, s.filtersRoi, s.lastSeen, [], []⟩ hid habsent
  have hns : alGet (tips.foldl (tipStep freq now)
      ⟨s.filtersScreen, s.filtersRoi, s.lastSeen, [], []⟩).ns hid = none :=
    htips.1
  have hls' : alGet (tips.foldl (tipStep freq now)
      ⟨s.filtersScreen, s.filtersRoi, s.lastSeen, [], []⟩).ls hid = some t0 :=
    htips.2.trans hls
  have hproc := retainFold_process now s.smoothedRoi s.smoothed hid p t0
    ((tips.foldl (tipStep freq now)
        ⟨s.filtersScreen, s.filtersRoi, s.lastSeen, [], []⟩).ns,
     (tips.foldl (tipStep freq now)
        ⟨s.filtersScreen, s.filtersRoi, s.lastSeen, [], []⟩).nr,
     (tips.foldl (tipStep freq now)
        ⟨s.filtersScreen, s.filtersRoi, s.lastSeen, [], []⟩).ls)
    hsm hnodup hns hls'
  constructor
  · intro hlt
    have h1 := hproc.1 hlt
    exact ⟨h1, buildSnapshot_mem _ _ hid p h1⟩
  · intro hgt
    have h2 := hproc.2 hgt
    exact ⟨h2.1, h2.2, buildSnapshot_not_mem _ _ hid h2.1⟩

/-- Witness for C6: the slot last seen at `t = 0` is retained through a
detection-free cycle at `t = 0.2` with its position unchanged. -/
theorem c6_grace_window_witness :
    alGet (cycleLocked 30 sRetained [] (1/5)).smoothed 0 = some (100, 100) :=
  ((c6_grace_window 30 sRetained [] (1/5) 0 0 (100, 100)
      (by simp [sRetained]) (by simp [sRetained])
      (by simp [sRetained, alGet]) (by simp)).1 (by norm_num)).1

/-! ## Claim C7: the One-Euro filter update. -/

theorem mathPi_pos : 0 < mathPi := by norm_num [mathPi]

theorem alphaCoef_mem (dt c : ℚ) :
    0 ≤ alphaCoef dt c ∧ alphaCoef dt c ≤ 1 := by
  simp only [alphaCoef]
  split
  case isTrue h =>
    constructor
    · exact div_nonneg h.le (by linarith)
    · rw [div_le_one (by linarith)]
      linarith
  case isFalse h => norm_num

theorem alphaCoef_lb (dt c mc : ℚ) (hmc : 0 < mc) (hc : mc ≤ c)
    (hdt : 0 < dt) :
    2 * mathPi * mc * dt / (2 * mathPi * mc * dt + 1) ≤ alphaCoef dt c := by
  have hpi := mathPi_pos
  have hrm : 0 < 2 * mathPi * mc * dt := by positivity
  have hr : 2 * mathPi * mc * dt ≤ 2 * mathPi * c * dt := by nlinarith
  have hrpos : 0 < 2 * mathPi * c * dt := lt_of_lt_of_le hrm hr
  simp only [alphaCoef]
  rw [if_pos hrpos, div_le_div_iff₀ (by linarith) (by linarith)]
  nlinarith

/-- Applying a low-pass stage whose coefficient is the default `1.0`
returns its input unchanged. -/
theorem lowPass_apply_alpha (lp : LowPass) (v : ℚ) :
    (lp.apply v).1.alpha = lp.alpha := by
  obtain ⟨a, s⟩ := lp
  cases s <;> rfl

theorem lowPass_apply_snd (lp : LowPass) (v : ℚ) (h : lp.alpha = 1) :
    (lp.apply v).2 = v := by
  obtain ⟨a, s⟩ := lp
  dsimp only at h
  subst h
  cases s
  · rfl
  · simp only [LowPass.apply]
    ring

/-- A non-seeding One-Euro update is a convex combination of the current
raw input and the previous state, with a coefficient bounded below by the
coefficient the minimum cutoff alone would give; all filter invariants are
preserved. -/
theorem update_convex (f : OneEuro1D) (x t t0 xp : ℚ)
    (halpha : f.lpX.alpha = 1) (hlt : f.lastT = some t0)
    (hxp : f.xPrev = some xp) :
    ∃ a : ℚ, 0 ≤ a ∧ a ≤ 1
      ∧ (0 < f.minCutoff → 0 ≤ f.beta →
          2 * mathPi * f.minCutoff * max (1/1000) (t - t0) /
            (2 * mathPi * f.minCutoff * max (1/1000) (t - t0) + 1) ≤ a)
      ∧ (f.update x t).2 = a * x + (1 - a) * xp
      ∧ (f.update x t).1.xPrev = some ((f.update x t).2)
      ∧ (f.update x t).1.lastT = some t
      ∧ (f.update x t).1.lpX.alpha = 1
      ∧ (f.update x t).1.minCutoff = f.minCutoff
      ∧ (f.update x t).1.beta = f.beta := by
  obtain ⟨fr, mc, beta, dc, xPrev, dxPrev, lastT, ⟨aX, sX⟩, ⟨aDx, sDx⟩⟩ := f
  dsimp only at halpha hlt hxp
  subst halpha
  subst hlt
  subst hxp
  have hdt : (0 : ℚ) < max (1/1000) (t - t0) :=
    lt_of_lt_of_le (by norm_num) (le_max_left _ _)
  refine ⟨alphaCoef (max (1/1000) (t - t0))
      (mc + beta * |(LowPass.apply ⟨aDx, sDx⟩
        (alphaCoef (max (1/1000) (t - t0)) dc *
            ((x - xp) / max (1/1000) (t - t0))
          + (1 - alphaCoef (max (1/1000) (t - t0)) dc)
            * dxPrev.getD ((x - xp) / max (1/1000) (t - t0)))).2|),
    (alphaCoef_mem _ _).1, (alphaCoef_mem _ _).2, ?_, ?_, rfl, rfl,
    lowPass_apply_alpha ⟨1, sX⟩ _, rfl, rfl⟩
  · intro hmc hb
    exact alphaCoef_lb _ _ _ hmc
      (le_add_of_nonneg_right (mul_nonneg hb (abs_nonneg _))) hdt
  · exact lowPass_apply_snd ⟨1, sX⟩ _ rfl

/-- C7: the One-Euro update in the exact-rational model is total — the
`dt` clamp at `1e-3` keeps every denominator positive, so no NaN/infinity
can arise, including as `dt → 0` (`t` may even equal or precede the last
timestamp).  First conjunct: a non-seeding update stays within any
interval containing the previous filter value and the current raw input —
hence, by induction from the seeding update (which returns the raw value),
within the span of the raw inputs seen so far.  Second conjunct: feeding
the same raw value `c` at a fixed rate makes the filter state converge to
`c`. -/
theorem c7_one_euro :
    (∀ (f : OneEuro1D) (xp t0 lo hi x t : ℚ),
      f.lpX.alpha = 1 → f.xPrev = some xp → f.lastT = some t0 →
      lo ≤ xp → xp ≤ hi → lo ≤ x → x ≤ hi →
      lo ≤ (f.update x t).2 ∧ (f.update x t).2 ≤ hi)
    ∧ (∀ (f : OneEuro1D) (c Δ x0 t0 : ℚ),
      f.lpX.alpha = 1 → f.xPrev = some x0 → f.lastT = some t0 →
      0 < f.minCutoff → 0 ≤ f.beta →
      ∀ ε : ℚ, 0 < ε → ∃ N : ℕ, ∀ n : ℕ, N ≤ n →
        |((iterSame c Δ f n).xPrev.getD c) - c| < ε) := by
  constructor
  · intro f xp t0 lo hi x t halpha hxp hlt hlo1 hhi1 hlo2 hhi2
    obtain ⟨a, ha0, ha1, _, hval, _⟩ := update_convex f x t t0 xp halpha hlt hxp
    rw [hval]
    constructor <;> nlinarith
  · intro f c Δ x0 t0 halpha hxp hlt hmc hbeta ε hε
    have hD : (0 : ℚ) < max (1/1000) Δ :=
      lt_of_lt_of_le (by norm_num) (le_max_left _ _)
    have hR : (0 : ℚ) < 2 * mathPi * f.minCutoff * max (1/1000) Δ := by
      have := mathPi_pos
      positivity
    have haMin0 : (0 : ℚ) < (2 * mathPi * f.minCutoff * max (1/1000) Δ) /
        (2 * mathPi * f.minCutoff * max (1/1000) Δ + 1) :=
      div_pos hR (by linarith)
    have haMin1 : (2 * mathPi * f.minCutoff * max (1/1000) Δ) /
        (2 * mathPi * f.minCutoff * max (1/1000) Δ + 1) ≤ 1 := by
      rw [div_le_one (by linarith)]
      linarith
    have hq0 : (0 : ℚ) ≤ 1 - (2 * mathPi * f.minCutoff * max (1/1000) Δ) /
        (2 * mathPi * f.minCutoff * max (1/1000) Δ + 1) := by linarith
    have hq1 : 1 - (2 * mathPi * f.minCutoff * max (1/1000) Δ) /
        (2 * mathPi * f.minCutoff * max (1/1000) Δ + 1) < 1 := by linarith
    have key : ∀ n : ℕ, ∃ xn tn : ℚ,
        (iterSame c Δ f n).xPrev = some xn
        ∧ (iterSame c Δ f n).lastT = some tn
        ∧ (iterSame c Δ f n).lpX.alpha = 1
        ∧ (iterSame c Δ f n).minCutoff = f.minCutoff
        ∧ (iterSame c Δ f n).beta = f.beta
        ∧ |xn - c| ≤ (1 - (2 * mathPi * f.minCutoff * max (1/1000) Δ) /
            (2 * mathPi * f.minCutoff * max (1/1000) Δ + 1)) ^ n
            * |x0 - c| := by
      intro n
      induction n with
      | zero => exact ⟨x0, t0, hxp, hlt, halpha, rfl, rfl, by simp⟩
      | succ n ih =>
        obtain ⟨xn, tn, h1, h2, h3, h4, h5, h6⟩ := ih
        obtain ⟨a, ha0, ha1, halb, hval, hxp', hlt', halpha', hmc', hbeta'⟩ :=
          update_convex (iterSame c Δ f n) c (tn + Δ) tn xn h3 h2 h1
        have hres : iterSame c Δ f (n + 1)
            = ((iterSame c Δ f n).update c (tn + Δ)).1 := by
          simp only [iterSame, h2, Option.getD_some]
        have halb' : (2 * mathPi * f.minCutoff * max (1/1000) Δ) /
            (2 * mathPi * f.minCutoff * max (1/1000) Δ + 1) ≤ a := by
          have hsub : tn + Δ - tn = Δ := by ring
          have := halb (h4 ▸ hmc) (h5 ▸ hbeta)
          rw [hsub, h4] at this
          exact this
        refine ⟨((iterSame c Δ f n).update c (tn + Δ)).2, tn + Δ,
          ?_, ?_, ?_, ?_, ?_, ?_⟩
        · rw [hres]
          exact hxp'
        · rw [hres]
          exact hlt'
        · rw [hres]
          exact halpha'
        · rw [hres, hmc', h4]
        · rw [hres, hbeta', h5]
        · have hdiff : ((iterSame c Δ f n).update c (tn + Δ)).2 - c
              = (1 - a) * (xn - c) := by
            rw [hval]
            ring
          rw [hdiff, abs_mul, abs_of_nonneg (by linarith : (0:ℚ) ≤ 1 - a)]
          calc (1 - a) * |xn - c|
              ≤ (1 - (2 * mathPi * f.minCutoff * max (1/1000) Δ) /
                  (2 * mathPi * f.minCutoff * max (1/1000) Δ + 1)) *
                |xn - c| := by
                apply mul_le_mul_of_nonneg_right _ (abs_nonneg _)
                linarith
            _ ≤ (1 - (2 * mathPi * f.minCutoff * max (1/1000) Δ) /
                  (2 * mathPi * f.minCutoff * max (1/1000) Δ + 1)) *
                ((1 - (2 * mathPi * f.minCutoff * max (1/1000) Δ) /
                  (2 * mathPi * f.minCutoff * max (1/1000) Δ + 1)) ^ n
                  * |x0 - c|) := by
                apply mul_le_mul_of_nonneg_left h6 hq0
            _ = (1 - (2 * mathPi * f.minCutoff * max (1/1000) Δ) /
                  (2 * mathPi * f.minCutoff * max (1/1000) Δ + 1)) ^ (n + 1)
                  * |x0 - c| := by
                ring
    obtain ⟨N, hN⟩ := exists_pow_lt_of_lt_one
      (show (0 : ℚ) < ε / (|x0 - c| + 1) by positivity) hq1
    refine ⟨N, fun n hn => ?_⟩
    obtain ⟨xn, tn, h1, _, _, _, _, h6⟩ := key n
    rw [h1, Option.getD_some]
    have hpow : (1 - (2 * mathPi * f.minCutoff * max (1/1000) Δ) /
        (2 * mathPi * f.minCutoff * max (1/1000) Δ + 1)) ^ n
        ≤ (1 - (2 * mathPi * f.minCutoff * max (1/1000) Δ) /
        (2 * mathPi * f.minCutoff * max (1/1000) Δ + 1)) ^ N :=
      pow_le_pow_of_le_one hq0 (by linarith) hn
    have habs : (0 : ℚ) ≤ |x0 - c| := abs_nonneg _
    have hNval : (1 - (2 * mathPi * f.minCutoff * max (1/1000) Δ) /
        (2 * mathPi * f.minCutoff * max (1/1000) Δ + 1)) ^ N *
        (|x0 - c| + 1) < ε := by
      have := hN
      rw [lt_div_iff₀ (by linarith)] at this
      exact this
    have hNpow : (0 : ℚ) ≤ (1 - (2 * mathPi * f.minCutoff * max (1/1000) Δ) /
        (2 * mathPi * f.minCutoff * max (1/1000) Δ + 1)) ^ N :=
      pow_nonneg hq0 N
    calc |xn - c|
        ≤ (1 - (2 * mathPi * f.minCutoff * max (1/1000) Δ) /
            (2 * mathPi * f.minCutoff * max (1/1000) Δ + 1)) ^ n
            * |x0 - c| := h6
      _ ≤ (1 - (2 * mathPi * f.minCutoff * max (1/1000) Δ) /
            (2 * mathPi * f.minCutoff * max (1/1000) Δ + 1)) ^ N
            * |x0 - c| := mul_le_mul_of_nonneg_right hpow habs
      _ < ε := by nlinarith

/-- Witness for C7's bounded-update part: the seeded filter updated with a
raw value at the same timestamp (`dt` clamped to `1e-3`) stays within the
span of its past value 100 and the new raw input 150. -/
theorem c7_one_euro_witness :
    50 ≤ (seededFilter.update 150 0).2 ∧ (seededFilter.update 150 0).2 ≤ 150 :=
  c7_one_euro.1 seededFilter 100 0 50 150 150 0 rfl rfl rfl
    (by norm_num) (by norm_num) (by norm_num) (by norm_num)

end ARPi
